import Mathlib

/-!
Shallow embedding of the reconciliation core of `src/seller.py` (stock and
price reconciliation for a marketplace seller account), together with proofs
about it.  Pure functions of the Python source become Lean functions; the
in-place mutation of the `offer_ids` list performed by `create_stocks` is made
explicit by returning the residual list; exceptions become `Except`/`Option`.
-/

/-- One row of the supplier spreadsheet (an element of `watch_remnants`),
restricted to the fields the reconciliation core reads.  `code` models
`str(watch.get("Код"))`, `quantity` models `str(watch.get("Количество"))`
and `price` models `watch.get("Цена")` (a string in every behaviour the
claims quantify over). -/
structure SupplierRecord where
  code : String
  quantity : String
  price : String
deriving DecidableEq

/-- The exception taxonomy visible in `main` of `src/seller.py`:
`requests.exceptions.ReadTimeout`, `requests.exceptions.ConnectionError`
(carrying its message), `ValueError` raised by `int()` on a non-numeric
string (carrying its message), and any other exception (carrying its
message). -/
inductive PyError where
  | readTimeout : PyError
  | connectionError : String → PyError
  | valueError : String → PyError
  | otherError : String → PyError
deriving DecidableEq

/-- Numeric value of a list of ASCII digit characters, most significant
first. -/
def digitsVal (cs : List Char) : Nat :=
  cs.foldl (fun a c => a * 10 + (c.toNat - Char.toNat '0')) 0

/-- A nonempty run of ASCII digits evaluates to its value; anything else is
rejected. -/
def digitsToNat (cs : List Char) : Option Nat :=
  if cs ≠ [] ∧ cs.all Char.isDigit then some (digitsVal cs) else none

/-- Strip leading and trailing whitespace from a character list. -/
def pyTrim (cs : List Char) : List Char :=
  ((cs.dropWhile Char.isWhitespace).reverse.dropWhile Char.isWhitespace).reverse

/-- Python built-in `int()` applied to a string: surrounding whitespace is
stripped, an optional sign is allowed, then a nonempty run of ASCII digits.
(Digit-group underscores and non-ASCII digits, which CPython also accepts,
are never produced by this program's data and are not modelled.)  `none`
models a raised `ValueError`. -/
def pyInt (s : String) : Option Int :=
  match pyTrim s.toList with
  | [] => none
  | c :: rest =>
    if c = '-' then (digitsToNat rest).map (fun n => -(Int.ofNat n))
    else if c = '+' then (digitsToNat rest).map Int.ofNat
    else (digitsToNat (c :: rest)).map Int.ofNat

/-- The stock-bucketing branch of `create_stocks` (src/seller.py lines
153-159): the literal `">10"` yields 100, the literal `"1"` yields 0, and
any other string goes through `int()`, raising `ValueError` when it is not
numeric. -/
def classifyStock (count : String) : Except PyError Int :=
  if count = ">10" then Except.ok 100
  else if count = "1" then Except.ok 0
  else
    match pyInt count with
    | some v => Except.ok v
    | none =>
        Except.error (PyError.valueError
          ("invalid literal for int() with base 10: " ++ count))

/-- A stock update as built by `create_stocks`:
`{"offer_id": ..., "stock": ...}`. -/
structure StockUpdate where
  offer_id : String
  stock : Int
deriving DecidableEq

/-- A price update as built by `create_prices`. -/
structure PriceUpdate where
  auto_action_enabled : String
  currency_code : String
  offer_id : String
  old_price : String
  price : String
deriving DecidableEq

/-- The record loop inside `create_stocks` (src/seller.py lines 151-161):
walk the supplier records in order; when a record's code is a member of the
working offer-id list, classify its quantity, emit a stock update and remove
that code from the list (Python `list.remove`, i.e. `List.erase`).  Returns
the emitted updates together with the residual offer-id list, or the first
classification error. -/
def stocksLoop : List SupplierRecord → List String →
    Except PyError (List StockUpdate × List String)
  | [], ids => Except.ok ([], ids)
  | w :: ws, ids =>
    if w.code ∈ ids then
      match classifyStock w.quantity with
      | Except.error e => Except.error e
      | Except.ok st =>
        match stocksLoop ws (ids.erase w.code) with
        | Except.error e => Except.error e
        | Except.ok (rest, ids') =>
            Except.ok (StockUpdate.mk w.code st :: rest, ids')
    else stocksLoop ws ids

/-- `create_stocks` (src/seller.py lines 138-165).  The Python function
mutates its `offer_ids` argument; the model returns the stock-update list
together with the residual offer-id list (the state the caller's list is
left in).  After the record loop, every offer id remaining in the working
list gets a stock-0 update. -/
def create_stocks (watch_remnants : List SupplierRecord)
    (offer_ids : List String) :
    Except PyError (List StockUpdate × List String) :=
  match stocksLoop watch_remnants offer_ids with
  | Except.error e => Except.error e
  | Except.ok (matched, residual) =>
      Except.ok (matched ++ residual.map (fun i => StockUpdate.mk i 0), residual)

/-- Python `str.split` with a one-character separator, on the character
list: splits at every occurrence of `sep`, always returning at least one
(possibly empty) part. -/
def pySplit (sep : Char) : List Char → List (List Char)
  | [] => [[]]
  | c :: cs =>
    if c = sep then [] :: pySplit sep cs
    else
      match pySplit sep cs with
      | [] => [[c]]
      | p :: ps => (c :: p) :: ps

/-- `price_conversion` (src/seller.py line 207):
`re.sub("[^0-9]", "", price.split(".")[0])` — take the part before the
first dot and keep only the ASCII digits. -/
def price_conversion (price : String) : String :=
  String.mk (((pySplit '.' price.toList).headD []).filter Char.isDigit)

/-- `create_prices` (src/seller.py lines 168-189): one price update per
supplier record whose code is a member of the offer-id list; the list is not
mutated and nothing is removed. -/
def create_prices (watch_remnants : List SupplierRecord)
    (offer_ids : List String) : List PriceUpdate :=
  watch_remnants.filterMap (fun w =>
    if w.code ∈ offer_ids then
      some (PriceUpdate.mk "UNKNOWN" "RUB" w.code "0" (price_conversion w.price))
    else none)

/-- Iteration core of `divide` (src/seller.py lines 210-221): Python's
`for i in range(0, len(lst), n): yield lst[i:i+n]` expressed as repeated
take/drop; the fuel argument bounds the number of yields and is passed
`lst.length`, which suffices for every positive `n`. -/
def divideGo (n : Nat) : Nat → List α → List (List α)
  | _, [] => []
  | 0, _ :: _ => []
  | fuel + 1, a :: as => (a :: as).take n :: divideGo n fuel ((a :: as).drop n)

/-- `divide` (src/seller.py lines 210-221): split a list into consecutive
chunks of `n` elements, the last chunk holding the remainder.  Python raises
`ValueError` for `n = 0` (`range` step 0); the model is only ever used, and
every theorem only speaks, about `0 < n`. -/
def divide (lst : List α) (n : Nat) : List (List α) :=
  divideGo n lst.length lst

/-- A batch submission performed by `main`: one `update_stocks` or
`update_price` POST with its payload. -/
inductive SubmitAction where
  | submitStocks : List StockUpdate → SubmitAction
  | submitPrices : List PriceUpdate → SubmitAction
deriving DecidableEq

/-- The external collaborators of `main` (src/seller.py lines 273-283):
the catalog fetch (`get_offer_ids`) and the supplier download
(`download_stock`) either produce data or raise, and each numbered batch
submission either succeeds or raises. -/
structure Env where
  fetchOfferIds : Except PyError (List String)
  fetchRemnants : Except PyError (List SupplierRecord)
  stockSubmit : Nat → Option PyError
  priceSubmit : Nat → Option PyError

/-- The diagnostic printed by the `except` clauses of `main`
(src/seller.py lines 284-289): a fixed timeout message, the error text
followed by the connection label, and the error text followed by the
generic label for every other exception — `ValueError` from a failed
`int()` included. -/
def errorMessage : PyError → String
  | PyError.readTimeout => "Превышено время ожидания..."
  | PyError.connectionError m => m ++ " Ошибка соединения"
  | PyError.valueError m => m ++ " ERROR_2"
  | PyError.otherError m => m ++ " ERROR_2"

/-- Sequential batch submission (`for some_stock in list(divide(...)): ...`):
each batch is attempted once, in order; the first raised exception stops the
loop.  Returns the attempted actions and the exception, if any. -/
def submitLoop (mk : List β → SubmitAction) (f : Nat → Option PyError) :
    Nat → List (List β) → List SubmitAction × Option PyError
  | _, [] => ([], none)
  | i, b :: bs =>
    match f i with
    | some e => ([mk b], some e)
    | none =>
      (mk b :: (submitLoop mk f (i + 1) bs).1, (submitLoop mk f (i + 1) bs).2)

/-- The `try` body and `except` clauses of `main` (src/seller.py lines
273-289): fetch the offer ids, download the supplier data, build and submit
the stock batches (size 100), then build the prices **from the offer-id list
as left by `create_stocks`** and submit the price batches (size 900).  The
first exception anywhere is reported through `errorMessage` and ends the
run.  Returns the attempted submissions and the printed diagnostic, if
any. -/
def runMain (env : Env) : List SubmitAction × Option String :=
  match env.fetchOfferIds with
  | Except.error e => ([], some (errorMessage e))
  | Except.ok offer_ids =>
    match env.fetchRemnants with
    | Except.error e => ([], some (errorMessage e))
    | Except.ok watch_remnants =>
      match create_stocks watch_remnants offer_ids with
      | Except.error e => ([], some (errorMessage e))
      | Except.ok (stocks, residual) =>
        match submitLoop SubmitAction.submitStocks env.stockSubmit 0 (divide stocks 100) with
        | (sacts, some e) => (sacts, some (errorMessage e))
        | (sacts, none) =>
          match submitLoop SubmitAction.submitPrices env.priceSubmit 0
              (divide (create_prices watch_remnants residual) 900) with
          | (pacts, some e) => (sacts ++ pacts, some (errorMessage e))
          | (pacts, none) => (sacts ++ pacts, none)

/-- The stock batches `main` would submit in a fault-free run of the
submission loops, as a function of the fetched data. -/
def plannedStocks (env : Env) : List (List StockUpdate) :=
  match env.fetchOfferIds, env.fetchRemnants with
  | Except.ok ids, Except.ok rems =>
    match create_stocks rems ids with
    | Except.ok (stocks, _) => divide stocks 100
    | Except.error _ => []
  | _, _ => []

/-- The price batches `main` would submit in a fault-free run of the
submission loops, as a function of the fetched data (note: built from the
residual offer-id list left by `create_stocks`). -/
def plannedPrices (env : Env) : List (List PriceUpdate) :=
  match env.fetchOfferIds, env.fetchRemnants with
  | Except.ok ids, Except.ok rems =>
    match create_stocks rems ids with
    | Except.ok (_, residual) => divide (create_prices rems residual) 900
    | Except.error _ => []
  | _, _ => []

/-- The supplier price string of the end-to-end example of the spec,
`"1'234.50 р"` (character 39 is the apostrophe). -/
def priceStrX : String :=
  String.mk ['1', Char.ofNat 39, '2', '3', '4', '.', '5', '0', ' ', 'р']

/-- The end-to-end example environment of the spec: catalog `{"X"}`, one
supplier record `{code: "X", quantityRaw: ">10", priceRaw: "1'234.50 р"}`,
and fault-free collaborators. -/
def envX : Env :=
  Env.mk (Except.ok ["X"]) (Except.ok [SupplierRecord.mk "X" ">10" priceStrX])
    (fun _ => none) (fun _ => none)

/-- The message `int()` produces on the quantity string `"abc"`. -/
def intErrMsg : String := "invalid literal for int() with base 10: abc"

/-- An environment whose run fails with a validation failure: the supplier
record's quantity string `"abc"` makes `int()` raise inside
`create_stocks`. -/
def envValidationFail : Env :=
  Env.mk (Except.ok ["A"]) (Except.ok [SupplierRecord.mk "A" "abc" "1.0"])
    (fun _ => none) (fun _ => none)

/-- An environment whose run fails with an unexpected (non-network,
non-validation) failure carrying the same message text. -/
def envUnexpectedFail : Env :=
  Env.mk (Except.error (PyError.otherError intErrMsg)) (Except.ok [])
    (fun _ => none) (fun _ => none)

/-! ### Helper lemmas about the record loop of `create_stocks` -/

/-- The record loop pairs each consumed offer id with exactly one emitted
update: the emitted offer ids together with the residual list are a
permutation of the initial offer-id list. -/
theorem stocksLoop_perm :
    ∀ (ws : List SupplierRecord) (ids : List String) (m : List StockUpdate)
      (r : List String), stocksLoop ws ids = Except.ok (m, r) →
      (m.map StockUpdate.offer_id ++ r).Perm ids := by
  intro ws
  induction ws with
  | nil =>
    intro ids m r h
    simp only [stocksLoop, Except.ok.injEq, Prod.mk.injEq] at h
    obtain ⟨h1, h2⟩ := h
    subst h1; subst h2
    simp
  | cons w ws ih =>
    intro ids m r h
    simp only [stocksLoop] at h
    by_cases hmem : w.code ∈ ids
    · rw [if_pos hmem] at h
      cases hc : classifyStock w.quantity with
      | error e => rw [hc] at h; exact absurd h (by simp)
      | ok st =>
        rw [hc] at h
        cases hr : stocksLoop ws (ids.erase w.code) with
        | error e => rw [hr] at h; exact absurd h (by simp)
        | ok pr =>
          obtain ⟨rest, ids'⟩ := pr
          rw [hr] at h
          simp only [Except.ok.injEq, Prod.mk.injEq] at h
          obtain ⟨h1, h2⟩ := h
          subst h1; subst h2
          have hperm := ih (ids.erase w.code) rest ids' hr
          simp only [List.map_cons, List.cons_append]
          exact (hperm.cons w.code).trans (List.perm_cons_erase hmem).symm
    · rw [if_neg hmem] at h
      exact ih ids m r h

/-- The residual offer-id list of the record loop is a sublist of the
initial one (ids are only ever removed). -/
theorem stocksLoop_sublist :
    ∀ (ws : List SupplierRecord) (ids : List String) (m : List StockUpdate)
      (r : List String), stocksLoop ws ids = Except.ok (m, r) →
      List.Sublist r ids := by
  intro ws
  induction ws with
  | nil =>
    intro ids m r h
    simp only [stocksLoop, Except.ok.injEq, Prod.mk.injEq] at h
    obtain ⟨_, h2⟩ := h
    subst h2
    exact List.Sublist.refl _
  | cons w ws ih =>
    intro ids m r h
    simp only [stocksLoop] at h
    by_cases hmem : w.code ∈ ids
    · rw [if_pos hmem] at h
      cases hc : classifyStock w.quantity with
      | error e => rw [hc] at h; exact absurd h (by simp)
      | ok st =>
        rw [hc] at h
        cases hr : stocksLoop ws (ids.erase w.code) with
        | error e => rw [hr] at h; exact absurd h (by simp)
        | ok pr =>
          obtain ⟨rest, ids'⟩ := pr
          rw [hr] at h
          simp only [Except.ok.injEq, Prod.mk.injEq] at h
          obtain ⟨_, h2⟩ := h
          subst h2
          exact (ih (ids.erase w.code) rest _ hr).trans (List.erase_sublist _ _)
    · rw [if_neg hmem] at h
      exact ih ids m r h

/-- When the initial offer-id list is duplicate-free, no supplier record's
code survives into the residual list: each matching record consumed the only
occurrence of its code, and non-matching codes were never there. -/
theorem stocksLoop_code_not_mem :
    ∀ (ws : List SupplierRecord) (ids : List String) (m : List StockUpdate)
      (r : List String), ids.Nodup → stocksLoop ws ids = Except.ok (m, r) →
      ∀ w ∈ ws, w.code ∉ r := by
  intro ws
  induction ws with
  | nil => intro ids m r _ _ w hw; exact absurd hw (by simp)
  | cons w0 ws ih =>
    intro ids m r hnd h w hw
    simp only [stocksLoop] at h
    by_cases hmem : w0.code ∈ ids
    · rw [if_pos hmem] at h
      cases hc : classifyStock w0.quantity with
      | error e => rw [hc] at h; exact absurd h (by simp)
      | ok st =>
        rw [hc] at h
        cases hr : stocksLoop ws (ids.erase w0.code) with
        | error e => rw [hr] at h; exact absurd h (by simp)
        | ok pr =>
          obtain ⟨rest, ids'⟩ := pr
          rw [hr] at h
          simp only [Except.ok.injEq, Prod.mk.injEq] at h
          obtain ⟨_, h2⟩ := h
          subst h2
          rcases List.mem_cons.mp hw with hww | hww
          · subst hww
            intro hcon
            exact hnd.not_mem_erase
              ((stocksLoop_sublist ws (ids.erase w.code) rest _ hr).subset hcon)
          · exact ih (ids.erase w0.code) rest _ (hnd.erase _) hr w hww
    · rw [if_neg hmem] at h
      rcases List.mem_cons.mp hw with hww | hww
      · subst hww
        intro hcon
        exact hmem ((stocksLoop_sublist ws ids m r h).subset hcon)
      · exact ih ids m r hnd h w hww

/-- When no record's code is in the offer-id list, the record loop emits
nothing and leaves the list untouched. -/
theorem stocksLoop_no_match :
    ∀ (ws : List SupplierRecord) (ids : List String),
      (∀ w ∈ ws, w.code ∉ ids) → stocksLoop ws ids = Except.ok ([], ids) := by
  intro ws
  induction ws with
  | nil => intro ids _; rfl
  | cons w ws ih =>
    intro ids h
    simp only [stocksLoop]
    rw [if_neg (h w (by simp))]
    exact ih ids (fun w' hw' => h w' (by simp [hw']))

/-- When no record's code is in the offer-id list, `create_prices` emits
nothing. -/
theorem create_prices_eq_nil (ws : List SupplierRecord) (ids : List String)
    (h : ∀ w ∈ ws, w.code ∉ ids) : create_prices ws ids = [] := by
  apply List.filterMap_eq_nil_iff.mpr
  intro w hw
  simp [h w hw]

/-- The offer ids of the price updates are exactly the record codes that
pass the membership filter, in record order. -/
theorem create_prices_map_offer (ws : List SupplierRecord) (ids : List String) :
    (create_prices ws ids).map PriceUpdate.offer_id
      = (ws.map SupplierRecord.code).filter (fun c => decide (c ∈ ids)) := by
  induction ws with
  | nil => rfl
  | cons w ws ih =>
    simp only [create_prices, List.filterMap_cons, List.map_cons, List.filter_cons]
    by_cases hmem : w.code ∈ ids
    · rw [if_pos hmem, if_pos (by simpa using hmem)]
      simp only [List.map_cons]
      exact congrArg (List.cons w.code) ih
    · rw [if_neg hmem, if_neg (by simpa using hmem)]
      exact ih

/-! ### Helper lemmas about `divide` -/

/-- The iteration core on an empty list yields no chunk, whatever the
fuel. -/
theorem divideGo_nil (n fuel : Nat) : divideGo n fuel ([] : List α) = [] := by
  cases fuel <;> rfl

/-- With enough fuel and a positive chunk size, concatenating the chunks
reproduces the list. -/
theorem divideGo_flatten :
    ∀ (fuel : Nat) (l : List α) (n : Nat), 0 < n → l.length ≤ fuel →
      (divideGo n fuel l).flatten = l := by
  intro fuel
  induction fuel with
  | zero =>
    intro l n _ hl
    cases l with
    | nil => rfl
    | cons a as => exact absurd hl (by simp)
  | succ f ih =>
    intro l n hn hl
    cases l with
    | nil => rfl
    | cons a as =>
      simp only [divideGo, List.flatten_cons]
      rw [ih ((a :: as).drop n) n hn
        (by simp only [List.length_drop, List.length_cons]; simp at hl; omega)]
      exact List.take_append_drop n (a :: as)

/-- With enough fuel and a positive chunk size, every chunk except possibly
the last has length exactly `n`. -/
theorem divideGo_dropLast_length :
    ∀ (fuel : Nat) (l : List α) (n : Nat), 0 < n → l.length ≤ fuel →
      ∀ c ∈ (divideGo n fuel l).dropLast, c.length = n := by
  intro fuel
  induction fuel with
  | zero =>
    intro l n _ hl c hc
    cases l with
    | nil => simp [divideGo] at hc
    | cons a as => exact absurd hl (by simp)
  | succ f ih =>
    intro l n hn hl c hc
    cases l with
    | nil => simp [divideGo] at hc
    | cons a as =>
      simp only [divideGo] at hc
      cases hrest : divideGo n f ((a :: as).drop n) with
      | nil => rw [hrest] at hc; simp at hc
      | cons b bs =>
        rw [hrest] at hc
        rw [List.dropLast_cons₂] at hc
        rcases List.mem_cons.mp hc with hcc | hcc
        · subst hcc
          have hdrop : (a :: as).drop n ≠ [] := by
            intro hcon
            rw [hcon, divideGo_nil] at hrest
            exact absurd hrest (by simp)
          have hlen : n < (a :: as).length := by
            by_contra hcon
            exact hdrop (List.drop_eq_nil_of_le (by omega))
          rw [List.length_take]
          exact Nat.min_eq_left (le_of_lt hlen)
        · have := ih ((a :: as).drop n) n hn
            (by simp only [List.length_drop, List.length_cons]; simp at hl; omega) c
          rw [hrest] at this
          exact this hcc

/-! ### Helper lemmas about `submitLoop` and `errorMessage` -/

/-- The submission loop attempts a prefix of the batch list, in order, each
batch at most once; it attempts everything exactly when no submission
raises. -/
theorem submitLoop_take (mk : List β → SubmitAction) (f : Nat → Option PyError) :
    ∀ (bs : List (List β)) (i : Nat), ∃ k, k ≤ bs.length ∧
      (submitLoop mk f i bs).1 = (bs.take k).map mk ∧
      ((submitLoop mk f i bs).2 = none → k = bs.length) := by
  intro bs
  induction bs with
  | nil => intro i; exact ⟨0, by simp [submitLoop]⟩
  | cons b bs ih =>
    intro i
    cases hf : f i with
    | some e =>
      refine ⟨1, by simp, ?_, ?_⟩
      · simp [submitLoop, hf]
      · intro hc; simp [submitLoop, hf] at hc
    | none =>
      obtain ⟨k, hk, h1, h2⟩ := ih (i + 1)
      refine ⟨k + 1, by simpa using hk, ?_, ?_⟩
      · simp only [submitLoop, hf, List.take_succ_cons, List.map_cons]
        exact congrArg (List.cons (mk b)) h1
      · intro hnone
        simp only [submitLoop, hf] at hnone
        simp [h2 hnone]

/-- The last character of a diagnostic that appends a fixed nonempty label
is the label's last character. -/
theorem append_getLast (s t : String) (h : t.toList ≠ []) :
    (s ++ t).toList.getLast? = t.toList.getLast? := by
  show (s ++ t).data.getLast? = t.data.getLast?
  rw [String.data_append]
  exact List.getLast?_append_of_ne_nil _ h

/-! ### Helper lemmas about `pySplit` and `pyTrim` -/

/-- Python `split` always returns at least one part. -/
theorem pySplit_ne_nil (sep : Char) : ∀ l : List Char, pySplit sep l ≠ [] := by
  intro l
  cases l with
  | nil => simp [pySplit]
  | cons c cs =>
    simp only [pySplit]
    by_cases h : c = sep
    · simp [h]
    · rw [if_neg h]
      cases hs : pySplit sep cs with
      | nil => simp
      | cons p ps => simp

/-- The first part produced by Python `split` is the longest prefix free of
the separator. -/
theorem pySplit_headD (sep : Char) :
    ∀ l : List Char, (pySplit sep l).headD []
      = l.takeWhile (fun c => decide (c ≠ sep)) := by
  intro l
  induction l with
  | nil => rfl
  | cons c cs ih =>
    simp only [pySplit, List.takeWhile_cons]
    by_cases h : c = sep
    · simp [h]
    · rw [if_neg h]
      cases hs : pySplit sep cs with
      | nil => exact absurd hs (pySplit_ne_nil sep cs)
      | cons p ps =>
        rw [hs] at ih
        simp only [List.headD_cons] at ih
        simp [h, ih]

/-- Trimming only removes characters: membership is preserved downward. -/
theorem pyTrim_subset (cs : List Char) : ∀ c ∈ pyTrim cs, c ∈ cs := by
  intro c hc
  simp only [pyTrim, List.mem_reverse] at hc
  have h1 := (List.dropWhile_sublist (l := (cs.dropWhile Char.isWhitespace).reverse)
    Char.isWhitespace).subset hc
  rw [List.mem_reverse] at h1
  exact (List.dropWhile_sublist Char.isWhitespace).subset h1

/-! ### Claim theorems -/

/-- C1: for every supplier record sequence and duplicate-free offer-id
list, a completed `create_stocks` emits exactly one stock update per
catalog offer id — count 1 for each catalog id, count 0 for everything
else — and every id left in the residual list got a stock-0 update. -/
theorem create_stocks_full_coverage
    (ws : List SupplierRecord) (ids : List String) (stocks : List StockUpdate)
    (rest : List String) (hnd : ids.Nodup)
    (h : create_stocks ws ids = Except.ok (stocks, rest)) :
    (∀ id ∈ ids, (stocks.map StockUpdate.offer_id).count id = 1)
    ∧ (∀ id : String, id ∉ ids → (stocks.map StockUpdate.offer_id).count id = 0)
    ∧ (∀ i ∈ rest, StockUpdate.mk i 0 ∈ stocks) := by
  cases hl : stocksLoop ws ids with
  | error e => unfold create_stocks at h; rw [hl] at h; simp at h
  | ok pr =>
    obtain ⟨m, r⟩ := pr
    unfold create_stocks at h
    rw [hl] at h
    simp only [Except.ok.injEq, Prod.mk.injEq] at h
    obtain ⟨hs, hr⟩ := h
    subst hs; subst hr
    have hperm : ((m ++ r.map (fun i => StockUpdate.mk i 0)).map
        StockUpdate.offer_id).Perm ids := by
      rw [List.map_append, List.map_map]
      have hco : (StockUpdate.offer_id ∘ fun i => StockUpdate.mk i 0)
          = fun i : String => i := rfl
      rw [hco, List.map_id']
      exact stocksLoop_perm ws ids m r hl
    refine ⟨?_, ?_, ?_⟩
    · intro id hid
      rw [hperm.count_eq id]
      exact List.count_eq_one_of_mem hnd hid
    · intro id hid
      rw [hperm.count_eq id]
      exact List.count_eq_zero.mpr hid
    · intro i hi
      exact List.mem_append_right m (List.mem_map_of_mem _ hi)

/-- Witness for C1 at a concrete input: one record matching one of two
catalog ids. -/
theorem create_stocks_full_coverage_w :
    (["A", "B"] : List String).Nodup
    ∧ (([StockUpdate.mk "A" 5, StockUpdate.mk "B" 0].map
        StockUpdate.offer_id).count "A") = 1 :=
  ⟨by decide,
   (create_stocks_full_coverage [SupplierRecord.mk "A" "5" "9.99"] ["A", "B"]
      [StockUpdate.mk "A" 5, StockUpdate.mk "B" 0] ["B"] (by decide) rfl).1
      "A" (by decide)⟩

/-- C4 counterexample: `create_stocks` leaks mutation through the offer-id
collection.  A second call receiving the collection exactly as the first
call left it (the Python list object after in-place `remove`s) returns a
different output, refuting idempotence as claimed. -/
theorem create_stocks_mutation_leak_cex :
    create_stocks [SupplierRecord.mk "A" "5" "9.99"] ["A"]
        = Except.ok ([StockUpdate.mk "A" 5], [])
    ∧ create_stocks [SupplierRecord.mk "A" "5" "9.99"] []
        = Except.ok ([], [])
    ∧ ([StockUpdate.mk "A" 5] : List StockUpdate) ≠ [] :=
  ⟨rfl, rfl, by decide⟩

/-- C4 amended: rerunning `create_stocks` on the offer-id collection it
left behind emits only stock-0 entries for the residual ids (identical to
the first output only when nothing matched); outputs repeat only when each
run receives a fresh copy of the original collection, both functions being
deterministic and `create_prices` performing no removal. -/
theorem create_stocks_second_run_zero_fill
    (ws : List SupplierRecord) (ids : List String) (stocks : List StockUpdate)
    (rest : List String) (hnd : ids.Nodup)
    (h : create_stocks ws ids = Except.ok (stocks, rest)) :
    create_stocks ws rest
      = Except.ok (rest.map (fun i => StockUpdate.mk i 0), rest) := by
  cases hl : stocksLoop ws ids with
  | error e => unfold create_stocks at h; rw [hl] at h; simp at h
  | ok pr =>
    obtain ⟨m, r⟩ := pr
    unfold create_stocks at h
    rw [hl] at h
    simp only [Except.ok.injEq, Prod.mk.injEq] at h
    obtain ⟨_, hr⟩ := h
    subst hr
    have hnm := stocksLoop_code_not_mem ws ids m r hnd hl
    unfold create_stocks
    rw [stocksLoop_no_match ws r hnm]
    simp

/-- Witness for the amended C4 at a concrete input. -/
theorem create_stocks_second_run_zero_fill_w :
    create_stocks [SupplierRecord.mk "A" "5" "9.99"] ([] : List String)
      = Except.ok ([], []) :=
  create_stocks_second_run_zero_fill [SupplierRecord.mk "A" "5" "9.99"] ["A"]
    [StockUpdate.mk "A" 5] [] (by decide) rfl

/-- C10: after a completed `create_stocks` on a duplicate-free offer-id
list, `create_prices` applied to the residual (mutated) offer-id list —
exactly what `main` does — returns the empty list: every id any record
mentions was consumed. -/
theorem create_prices_after_create_stocks_empty
    (ws : List SupplierRecord) (ids : List String) (stocks : List StockUpdate)
    (rest : List String) (hnd : ids.Nodup)
    (h : create_stocks ws ids = Except.ok (stocks, rest)) :
    create_prices ws rest = [] := by
  cases hl : stocksLoop ws ids with
  | error e => unfold create_stocks at h; rw [hl] at h; simp at h
  | ok pr =>
    obtain ⟨m, r⟩ := pr
    unfold create_stocks at h
    rw [hl] at h
    simp only [Except.ok.injEq, Prod.mk.injEq] at h
    obtain ⟨_, hr⟩ := h
    subst hr
    exact create_prices_eq_nil ws r (stocksLoop_code_not_mem ws ids m r hnd hl)

/-- Witness for C10 at a concrete input. -/
theorem create_prices_after_create_stocks_empty_w :
    create_prices [SupplierRecord.mk "A" "5" "9.99"] ([] : List String) = [] :=
  create_prices_after_create_stocks_empty [SupplierRecord.mk "A" "5" "9.99"]
    ["A"] [StockUpdate.mk "A" 5] [] (by decide) rfl

/-- C5: the stock bucketing policy — `">10"` yields 100, `"1"` yields 0,
`"7"` yields 7, and every other string is taken at face value through
`int()`, a parse error being raised when it is not numeric. -/
theorem classifyStock_policy :
    classifyStock ">10" = Except.ok 100
    ∧ classifyStock "1" = Except.ok 0
    ∧ classifyStock "7" = Except.ok 7
    ∧ ∀ s : String, s ≠ ">10" → s ≠ "1" →
        ((∀ v : Int, pyInt s = some v → classifyStock s = Except.ok v)
          ∧ (pyInt s = none →
              ∃ m, classifyStock s = Except.error (PyError.valueError m))) := by
  refine ⟨rfl, rfl, rfl, ?_⟩
  intro s h1 h2
  constructor
  · intro v hv
    unfold classifyStock
    rw [if_neg h1, if_neg h2, hv]
  · intro hn
    unfold classifyStock
    rw [if_neg h1, if_neg h2, hn]
    exact ⟨_, rfl⟩

/-- Witness for C5 at the concrete string `"12"`. -/
theorem classifyStock_policy_w : classifyStock "12" = Except.ok 12 :=
  (classifyStock_policy.2.2.2 "12" (by decide) (by decide)).1 12 (by decide)

/-- C6: `price_conversion` returns exactly the ASCII digit characters of
its input that occur strictly before the first dot (all of the input when
there is no dot), hence only digit characters; on `"5'990.00 руб"` it
returns `"5990"`. -/
theorem price_conversion_digits_before_dot :
    ∀ p : String,
      (price_conversion p).toList
          = (p.toList.takeWhile (fun c => decide (c ≠ '.'))).filter Char.isDigit
      ∧ (price_conversion p).toList.all Char.isDigit = true
      ∧ price_conversion (String.mk
          ['5', Char.ofNat 39, '9', '9', '0', '.', '0', '0', ' ', 'р', 'у', 'б'])
          = "5990" := by
  intro p
  have h1 : (price_conversion p).toList
      = ((pySplit '.' p.toList).headD []).filter Char.isDigit := rfl
  refine ⟨?_, ?_, by decide⟩
  · rw [h1, pySplit_headD]
  · rw [h1, List.all_eq_true]
    intro c hc
    exact (List.mem_filter.mp hc).2

/-- C7 counterexample: the classifier succeeds on `"-5"` with the negative
stock −5, refuting the claim that every successful classification is
non-negative. -/
theorem classifyStock_negative_cex :
    classifyStock "-5" = Except.ok (-5) ∧ (-5 : Int) < 0 :=
  ⟨rfl, by decide⟩


/-- A successful signless `int()` parse is a natural number: membership of
the minus sign in the input is the only road to a negative value. -/
theorem pyInt_nonneg_of_no_minus :
    ∀ (q : String) (u : Int), '-' ∉ q.toList → pyInt q = some u → 0 ≤ u := by
  intro q u hm hp
  unfold pyInt at hp
  split at hp
  · exact absurd hp (by simp)
  next c rest heq =>
    by_cases hc : c = '-'
    · exfalso
      apply hm
      apply pyTrim_subset q.toList
      rw [heq, hc]
      exact List.mem_cons_self _ _
    · rw [if_neg hc] at hp
      by_cases hc2 : c = '+'
      · rw [if_pos hc2] at hp
        cases hd : digitsToNat rest with
        | none => rw [hd] at hp; exact absurd hp (by simp)
        | some nn =>
          rw [hd] at hp
          simp only [Option.map_some', Option.some.injEq] at hp
          subst hp
          exact Int.ofNat_nonneg nn
      · rw [if_neg hc2] at hp
        cases hd : digitsToNat (c :: rest) with
        | none => rw [hd] at hp; exact absurd hp (by simp)
        | some nn =>
          rw [hd] at hp
          simp only [Option.map_some', Option.some.injEq] at hp
          subst hp
          exact Int.ofNat_nonneg nn

/-- C7 amended: classification is non-negative on every quantity string
that contains no minus sign — `">10"` and `"1"` map to 100 and 0, and a
signless `int()` parse yields a natural number. -/
theorem classifyStock_nonneg_no_minus :
    ∀ (q : String) (v : Int), '-' ∉ q.toList →
      classifyStock q = Except.ok v → 0 ≤ v := by
  intro q v hm h
  unfold classifyStock at h
  by_cases h1 : q = ">10"
  · rw [if_pos h1] at h
    simp only [Except.ok.injEq] at h
    omega
  · rw [if_neg h1] at h
    by_cases h2 : q = "1"
    · rw [if_pos h2] at h
      simp only [Except.ok.injEq] at h
      omega
    · rw [if_neg h2] at h
      cases hp : pyInt q with
      | none => rw [hp] at h; exact absurd h (by simp)
      | some u =>
        rw [hp] at h
        simp only [Except.ok.injEq] at h
        subst h
        exact pyInt_nonneg_of_no_minus q u hm hp

/-- Witness for the amended C7 at the concrete string `"7"`. -/
theorem classifyStock_nonneg_no_minus_w :
    '-' ∉ "7".toList ∧ classifyStock "7" = Except.ok 7 ∧ (0 : Int) ≤ 7 :=
  ⟨by decide, rfl, classifyStock_nonneg_no_minus "7" 7 (by decide) rfl⟩

/-- C8: for every list and positive chunk size, concatenating the chunks
of `divide` reproduces the list exactly, and every chunk except possibly
the last has length exactly `n`. -/
theorem divide_partition {α : Type} (l : List α) (n : Nat) (h : 0 < n) :
    (divide l n).flatten = l ∧ ∀ c ∈ (divide l n).dropLast, c.length = n :=
  ⟨divideGo_flatten l.length l n h le_rfl,
   divideGo_dropLast_length l.length l n h le_rfl⟩

/-- Witness for C8 at a five-element list with chunk size two. -/
theorem divide_partition_w :
    0 < 2 ∧ (divide [1, 2, 3, 4, 5] 2).flatten = [1, 2, 3, 4, 5] :=
  ⟨by decide, (divide_partition [1, 2, 3, 4, 5] 2 (by decide)).1⟩

/-- C2 counterexample: two supplier records sharing the code `"A"` both
match the catalog `["A"]` and `create_prices` emits **two** price updates
for that offer id, refuting "exactly one PriceUpdate per offer id present
in both". -/
theorem create_prices_duplicate_code_cex :
    "A" ∈ (["A"] : List String)
    ∧ "A" ∈ ([SupplierRecord.mk "A" "1" "100.00",
        SupplierRecord.mk "A" "1" "100.00"].map SupplierRecord.code)
    ∧ ((create_prices [SupplierRecord.mk "A" "1" "100.00",
          SupplierRecord.mk "A" "1" "100.00"] ["A"]).map
        PriceUpdate.offer_id).count "A" = 2
    ∧ (2 : Nat) ≠ 1 :=
  ⟨by decide, by decide, by decide, by decide⟩

/-- C2 amended: `create_prices` emits one price update per supplier record
whose code is in the catalog, in record order; hence, whenever the supplier
record codes are duplicate-free, exactly one update per offer id present in
both the catalog and the records, none for anything else.  The concrete
A/B example holds exactly as claimed. -/
theorem create_prices_per_matching_record
    (ws : List SupplierRecord) (ids : List String)
    (hnd : (ws.map SupplierRecord.code).Nodup) :
    (∀ id : String, ((create_prices ws ids).map PriceUpdate.offer_id).count id
        = if id ∈ ids ∧ id ∈ ws.map SupplierRecord.code then 1 else 0)
    ∧ create_prices [SupplierRecord.mk "A" "1" "100.00"] ["A", "B"]
        = [PriceUpdate.mk "UNKNOWN" "RUB" "A" "0" "100"] := by
  refine ⟨?_, rfl⟩
  intro id
  rw [create_prices_map_offer]
  by_cases hid : id ∈ ids
  · rw [List.count_filter (by simpa using hid)]
    by_cases hc : id ∈ ws.map SupplierRecord.code
    · rw [if_pos ⟨hid, hc⟩]
      exact List.count_eq_one_of_mem hnd hc
    · rw [if_neg (by tauto)]
      exact List.count_eq_zero.mpr hc
  · rw [if_neg (by tauto)]
    apply List.count_eq_zero.mpr
    intro hcon
    exact hid (by simpa using (List.mem_filter.mp hcon).2)

/-- Witness for the amended C2 at the spec's concrete A/B example. -/
theorem create_prices_per_matching_record_w :
    ((create_prices [SupplierRecord.mk "A" "1" "100.00"] ["A", "B"]).map
        PriceUpdate.offer_id).count "A"
      = if "A" ∈ (["A", "B"] : List String)
            ∧ "A" ∈ [SupplierRecord.mk "A" "1" "100.00"].map SupplierRecord.code
        then 1 else 0 :=
  (create_prices_per_matching_record [SupplierRecord.mk "A" "1" "100.00"]
    ["A", "B"] (by decide)).1 "A"

/-- C3: the end-to-end pipeline of `main` on catalog `{"X"}` and the single
record `{code: "X", quantityRaw: ">10", priceRaw: "1'234.50 р"}` submits the
stock batch `[{offer_id: "X", stock: 100}]` as claimed, but submits **no**
price batch at all: `create_stocks` consumed `"X"` from the offer-id list
that `main` then hands to `create_prices`.  The data itself would have
produced the claimed `[{offer_id: "X", price: "1234"}]` had `create_prices`
received the original catalog list. -/
theorem main_pipeline_empty_price_batch :
    runMain envX = ([SubmitAction.submitStocks [StockUpdate.mk "X" 100]], none)
    ∧ create_prices [SupplierRecord.mk "X" ">10" priceStrX] ["X"]
        = [PriceUpdate.mk "UNKNOWN" "RUB" "X" "0" "1234"] :=
  ⟨rfl, rfl⟩

/-- C9 counterexample: a validation failure (the quantity string `"abc"`
making `int()` raise inside `create_stocks`) and an unexpected failure
carrying the same text are different errors yet produce identical runs and
identical diagnostics — `main` funnels both through the same generic
handler, refuting "each produce a distinct diagnostic message". -/
theorem main_error_reporting_cex :
    create_stocks [SupplierRecord.mk "A" "abc" "1.0"] ["A"]
        = Except.error (PyError.valueError intErrMsg)
    ∧ envUnexpectedFail.fetchOfferIds = Except.error (PyError.otherError intErrMsg)
    ∧ PyError.valueError intErrMsg ≠ PyError.otherError intErrMsg
    ∧ runMain envValidationFail = runMain envUnexpectedFail :=
  ⟨rfl, rfl, by decide, rfl⟩

/-- C9 amended: every failure is reported through the handler's single
diagnostic and ends the run.  Timeouts, connection failures and the generic
handler each have messages no instance of another class can equal, but
validation failures and unexpected failures share the same generic
diagnostic.  The submissions performed are always an in-order prefix of the
planned stock batches followed by an in-order prefix of the planned price
batches (so no batch is ever retried), everything is submitted exactly when
no error occurred, and a failure during stock submission prevents every
price submission. -/
theorem main_error_reporting :
    (∀ m mo : String,
        errorMessage PyError.readTimeout ≠ errorMessage (PyError.connectionError m)
        ∧ errorMessage PyError.readTimeout ≠ errorMessage (PyError.otherError mo)
        ∧ errorMessage (PyError.connectionError m)
            ≠ errorMessage (PyError.otherError mo))
    ∧ (∀ m : String,
        errorMessage (PyError.valueError m) = errorMessage (PyError.otherError m))
    ∧ (∀ env : Env, (runMain env).2 = none
        ∨ ∃ e : PyError, (runMain env).2 = some (errorMessage e))
    ∧ (∀ env : Env, ∃ sk pk : Nat,
        (runMain env).1
            = ((plannedStocks env).take sk).map SubmitAction.submitStocks
              ++ ((plannedPrices env).take pk).map SubmitAction.submitPrices
        ∧ ((runMain env).2 = none
            → sk = (plannedStocks env).length ∧ pk = (plannedPrices env).length)
        ∧ (sk < (plannedStocks env).length → pk = 0)) := by
  refine ⟨?_, ?_, ?_, ?_⟩
  · intro m mo
    refine ⟨?_, ?_, ?_⟩
    · intro heq
      simp only [errorMessage] at heq
      have h1 := append_getLast m " Ошибка соединения" (by decide)
      rw [← heq] at h1
      exact absurd h1 (by decide)
    · intro heq
      simp only [errorMessage] at heq
      have h1 := append_getLast mo " ERROR_2" (by decide)
      rw [← heq] at h1
      exact absurd h1 (by decide)
    · intro heq
      simp only [errorMessage] at heq
      have h1 := append_getLast m " Ошибка соединения" (by decide)
      have h2 := append_getLast mo " ERROR_2" (by decide)
      rw [heq, h2] at h1
      exact absurd h1 (by decide)
  · intro m
    rfl
  · intro env
    cases ho : env.fetchOfferIds with
    | error e => right; exact ⟨e, by simp [runMain, ho]⟩
    | ok ids =>
      cases hrem : env.fetchRemnants with
      | error e => right; exact ⟨e, by simp [runMain, ho, hrem]⟩
      | ok rems =>
        cases hcs : create_stocks rems ids with
        | error e => right; exact ⟨e, by simp [runMain, ho, hrem, hcs]⟩
        | ok pr =>
          obtain ⟨stocks, residual⟩ := pr
          cases hsl : submitLoop SubmitAction.submitStocks env.stockSubmit 0
              (divide stocks 100) with
          | mk sacts so =>
            cases so with
            | some e =>
              right; exact ⟨e, by simp [runMain, ho, hrem, hcs, hsl]⟩
            | none =>
              cases hpl : submitLoop SubmitAction.submitPrices env.priceSubmit 0
                  (divide (create_prices rems residual) 900) with
              | mk pacts po =>
                cases po with
                | some e =>
                  right; exact ⟨e, by simp [runMain, ho, hrem, hcs, hsl, hpl]⟩
                | none =>
                  left; simp [runMain, ho, hrem, hcs, hsl, hpl]
  · intro env
    cases ho : env.fetchOfferIds with
    | error e =>
      refine ⟨0, 0, ?_, ?_, ?_⟩
      · simp [runMain, plannedStocks, plannedPrices, ho]
      · intro hc; simp [runMain, ho] at hc
      · intro hc; simp [plannedStocks, ho] at hc
    | ok ids =>
      cases hrem : env.fetchRemnants with
      | error e =>
        refine ⟨0, 0, ?_, ?_, ?_⟩
        · simp [runMain, plannedStocks, plannedPrices, ho, hrem]
        · intro hc; simp [runMain, ho, hrem] at hc
        · intro hc; simp [plannedStocks, ho, hrem] at hc
      | ok rems =>
        cases hcs : create_stocks rems ids with
        | error e =>
          refine ⟨0, 0, ?_, ?_, ?_⟩
          · simp [runMain, plannedStocks, plannedPrices, ho, hrem, hcs]
          · intro hc; simp [runMain, ho, hrem, hcs] at hc
          · intro hc; simp [plannedStocks, ho, hrem, hcs] at hc
        | ok pr =>
          obtain ⟨stocks, residual⟩ := pr
          have hps : plannedStocks env = divide stocks 100 := by
            simp [plannedStocks, ho, hrem, hcs]
          have hpp : plannedPrices env
              = divide (create_prices rems residual) 900 := by
            simp [plannedPrices, ho, hrem, hcs]
          obtain ⟨sk, hsk, hs1, hs2⟩ := submitLoop_take SubmitAction.submitStocks
            env.stockSubmit (divide stocks 100) 0
          cases hsl : submitLoop SubmitAction.submitStocks env.stockSubmit 0
              (divide stocks 100) with
          | mk sacts so =>
            rw [hsl] at hs1 hs2
            simp only at hs1 hs2
            cases so with
            | some e =>
              refine ⟨sk, 0, ?_, ?_, ?_⟩
              · rw [hps, hpp]
                simp [runMain, ho, hrem, hcs, hsl, hs1]
              · intro hc
                simp [runMain, ho, hrem, hcs, hsl] at hc
              · intro _; rfl
            | none =>
              obtain ⟨pk, hpk, hp1, hp2⟩ := submitLoop_take
                SubmitAction.submitPrices env.priceSubmit
                (divide (create_prices rems residual) 900) 0
              cases hpl : submitLoop SubmitAction.submitPrices env.priceSubmit 0
                  (divide (create_prices rems residual) 900) with
              | mk pacts po =>
                rw [hpl] at hp1 hp2
                simp only at hp1 hp2
                refine ⟨sk, pk, ?_, ?_, ?_⟩
                · rw [hps, hpp]
                  cases po with
                  | some e => simp [runMain, ho, hrem, hcs, hsl, hpl, hs1, hp1]
                  | none => simp [runMain, ho, hrem, hcs, hsl, hpl, hs1, hp1]
                · intro hnone
                  cases po with
                  | some e => simp [runMain, ho, hrem, hcs, hsl, hpl] at hnone
                  | none =>
                    rw [hps, hpp]
                    exact ⟨hs2 rfl, hp2 rfl⟩
                · intro hlt
                  rw [hps] at hlt
                  have hlen := hs2 rfl
                  omega

/-- Witness for the amended C9: the validation and generic diagnostics
coincide at a concrete message. -/
theorem main_error_reporting_w :
    errorMessage (PyError.valueError "boom")
      = errorMessage (PyError.otherError "boom") :=
  main_error_reporting.2.1 "boom"
